import Mathlib

/-!
Shallow embedding of the `dfq` single-process file-based queue
(`queue.go`, `interfaces.go`).

The queue stores one record per file `<id>.data` inside a directory; scratch
files are named `*.temp`.  The embedding models the directory as an
association list from integer ids to byte contents plus a list of scratch-file
names, and each queue operation as an explicit state transformer translated
line by line from the Go source.  Machine `int64` values are modelled as `Int`
(the ids and counters involved stay far away from the 2^63 boundary in every
statement below, so no wrap-around modelling is required).
-/

namespace Dfq

/-- Byte contents of one record (`one file is one record`). -/
abbrev Data := List Nat

/-- Errors surfaced by the queue engine: the distinguished `ErrEmptyQueue`
sentinel (`interfaces.go`), a `strconv.ParseInt` failure during the recovery
scan, and opaque I/O errors (tagged by a number) such as a failing
`os.Remove`. -/
inductive GoErr where
  | emptyQueue : GoErr
  | parseError : GoErr
  | ioErr : Nat → GoErr
deriving DecidableEq

/-- State of one `queue` value (`queue.go`): the directory contents
(`files` = published `<id>.data` records, `temps` = names of `*.temp`
scratch files), the single-slot notification channel (`notify` = a signal is
pending), `reader.currentId`, `writer.counter` and `length`. -/
structure QState where
  files : List (Int × Data)
  temps : List Nat
  notify : Bool
  currentId : Int
  counter : Int
  length : Int
deriving DecidableEq

/-- Look up the record file `<k>.data` in the directory. -/
def flookup (k : Int) : List (Int × Data) → Option Data
  | [] => none
  | p :: rest => if p.1 = k then some p.2 else flookup k rest

/-- Delete the record file `<k>.data` from the directory (`os.Remove`). -/
def fremove (k : Int) : List (Int × Data) → List (Int × Data)
  | [] => []
  | p :: rest => if p.1 = k then fremove k rest else p :: fremove k rest

/-- `os.Rename(tmp, "<k>.data")`: the destination is replaced if present. -/
def fupdate (k : Int) (d : Data) (l : List (Int × Data)) : List (Int × Data) :=
  (k, d) :: fremove k l

/-- Delete scratch file `t` from the directory (`os.Remove` on a temp). -/
def tremove (t : Nat) : List Nat → List Nat
  | [] => []
  | x :: rest => if x = t then rest else x :: tremove t rest

/-- `Stream(handler)` (`queue.go` lines 63-79): create a scratch file `tmp`,
run the handler (modelled by its outcome: either the bytes it wrote or the
error it returned), and on success attach the scratch file
(`Attach`/`attachToQueue`, lines 163-188: rename to `<writer.counter>.data`,
increment the counter, increment `length`, raise the notification); on
handler error delete the scratch file and return the error. -/
def stream (tmp : Nat) (handler : Except GoErr Data) (s : QState) :
    Option GoErr × QState :=
  let s1 : QState := { s with temps := tmp :: s.temps }
  match handler with
  | .error e => (some e, { s1 with temps := tremove tmp s1.temps })
  | .ok d =>
      (none, { s1 with
                temps := tremove tmp s1.temps,
                files := fupdate s1.counter d s1.files,
                counter := s1.counter + 1,
                length := s1.length + 1,
                notify := true })

/-- `Peek()` (`queue.go` lines 107-118): open `<reader.currentId>.data`; a
successful open returns a handle (modelled as the id together with the bytes);
a not-exist failure returns `ErrEmptyQueue`.  The state is returned unchanged,
exactly as in the source (the reader lock protects but nothing mutates). -/
def peek (s : QState) : Except GoErr (Int × Data) × QState :=
  match flookup s.currentId s.files with
  | some d => (Except.ok (s.currentId, d), s)
  | none => (Except.error GoErr.emptyQueue, s)

/-- Outcome of the `os.Remove` call inside `Commit` (decided by the
filesystem/OS): success, a not-exist error, or any other I/O error. -/
inductive RmResult where
  | ok : RmResult
  | notExist : RmResult
  | otherErr : Nat → RmResult

/-- `Commit()` (`queue.go` lines 121-133) with the `os.Remove` outcome `rm`
supplied by the environment: record the current path, advance
`reader.currentId`, decrement `length`, raise the notification, then remove
the file; a not-exist failure is swallowed, any other error is returned. -/
def commitWith (rm : RmResult) (s : QState) : Option GoErr × QState :=
  let path := s.currentId
  let s1 : QState := { s with
                        currentId := s.currentId + 1,
                        length := s.length - 1,
                        notify := true }
  match rm with
  | .ok => (none, { s1 with files := fremove path s1.files })
  | .notExist => (none, s1)
  | .otherErr e => (some (GoErr.ioErr e), s1)

/-- `Commit()` against the in-model filesystem: `os.Remove` succeeds exactly
when `<reader.currentId>.data` exists, and fails with not-exist otherwise. -/
def commitAuto (s : QState) : Option GoErr × QState :=
  commitWith (if (flookup s.currentId s.files).isSome then .ok else .notExist) s

/-- `Len()` (`queue.go` lines 153-155). -/
def Len (s : QState) : Int := s.length

/-- One entry of the directory listing seen by `synchronizeState`
(`ioutil.ReadDir`): a parseable `<id>.data` record file with its bytes, a
data-suffixed file whose name does not parse as an integer, or a `*.temp`
scratch file. -/
inductive DirEntry where
  | data : Int → Data → DirEntry
  | badData : DirEntry
  | temp : Nat → DirEntry
deriving DecidableEq

/-- Ids of all parseable `<id>.data` entries of a listing. -/
def dataIds : List DirEntry → List Int
  | [] => []
  | DirEntry.data id _ :: rest => id :: dataIds rest
  | _ :: rest => dataIds rest

/-- The record files present after the recovery scan (the scan removes every
`*.temp` entry and keeps every data file). -/
def buildFiles : List DirEntry → List (Int × Data)
  | [] => []
  | DirEntry.data id b :: rest => (id, b) :: buildFiles rest
  | _ :: rest => buildFiles rest

/-- The scan loop of `synchronizeState` (`queue.go` lines 203-225), with the
running listing index `i` and accumulators `mn`/`mx` (Go initialises both to
`0`).  Note the source guards the first-element initialisation with
`i == 0`, the index in the whole listing, not the index among data files. -/
def syncLoop : Nat → Int → Int → List DirEntry → Except GoErr (Int × Int)
  | _, mn, mx, [] => Except.ok (mn, mx)
  | i, mn, mx, e :: rest =>
      match e with
      | DirEntry.data id _ =>
          if i = 0 then syncLoop (i + 1) id id rest
          else if mx < id then syncLoop (i + 1) mn id rest
          else if id < mn then syncLoop (i + 1) id mx rest
          else syncLoop (i + 1) mn mx rest
      | DirEntry.badData => Except.error GoErr.parseError
      | DirEntry.temp _ => syncLoop (i + 1) mn mx rest

/-- `Open(directory)` followed by `synchronizeState` (`queue.go` lines 22-32
and 198-230) on a directory whose listing is `listing`: run the scan loop,
then set `reader.currentId = min`, `writer.counter = max` and
`length = max - min`; all `*.temp` entries have been removed. -/
def openQueue (listing : List DirEntry) : Except GoErr QState :=
  match syncLoop 0 0 0 listing with
  | Except.error e => Except.error e
  | Except.ok (mn, mx) =>
      Except.ok { files := buildFiles listing,
                  temps := [],
                  notify := false,
                  currentId := mn,
                  counter := mx,
                  length := mx - mn }

/-- The state produced by `Open` on an empty directory. -/
def initState : QState :=
  { files := [], temps := [], notify := false,
    currentId := 0, counter := 0, length := 0 }

theorem open_empty_dir : openQueue [] = Except.ok initState := rfl

/-- Observable events of one `Steal` execution, in the order the source
performs them: a successful attach of the record into the destination
directory (the destination rename succeeded), a failed attach attempt, and an
invocation of `Commit` on the source queue. -/
inductive StealEv where
  | attachOk : StealEv
  | attachFail : StealEv
  | srcCommit : StealEv
deriving DecidableEq

/-- `Steal(from)` (`queue.go` lines 81-103) of a file-backed source, with the
trace of observable events appended in execution order.  `renameOk` models
whether the cross-directory `os.Rename` of the fast path can succeed (it
fails between different volumes).  Fast path: `q.Attach(fq.File())` — rename
the source's current record file into the destination under the destination's
`writer.counter` — and, only if that succeeded, `from.Commit()`.  Otherwise
the fallback runs `q.Stream` with a handler that peeks the source, copies its
bytes into the destination scratch file, and then calls `from.Commit()`
before the handler returns — so before `q.Attach` promotes the scratch
file. -/
def steal (tmp : Nat) (renameOk : Bool) (dst src : QState) :
    Option GoErr × QState × QState × List StealEv :=
  match flookup src.currentId src.files, renameOk with
  | some d, true =>
      let src1 : QState := { src with files := fremove src.currentId src.files }
      let dst1 : QState := { dst with
                              files := fupdate dst.counter d dst.files,
                              counter := dst.counter + 1,
                              length := dst.length + 1,
                              notify := true }
      let r := commitAuto src1
      (r.1, dst1, r.2, [StealEv.attachOk, StealEv.srcCommit])
  | _, _ =>
      let dst1 : QState := { dst with temps := tmp :: dst.temps }
      match flookup src.currentId src.files with
      | none =>
          (some GoErr.emptyQueue,
           { dst1 with temps := tremove tmp dst1.temps }, src,
           [StealEv.attachFail])
      | some d =>
          let r := commitAuto src
          match r.1 with
          | some e =>
              (some e, { dst1 with temps := tremove tmp dst1.temps }, r.2,
               [StealEv.attachFail, StealEv.srcCommit])
          | none =>
              let dst2 : QState := { dst1 with
                                      temps := tremove tmp dst1.temps,
                                      files := fupdate dst1.counter d dst1.files,
                                      counter := dst1.counter + 1,
                                      length := dst1.length + 1,
                                      notify := true }
              (none, dst2, r.2,
               [StealEv.attachFail, StealEv.srcCommit, StealEv.attachOk])

/-- `true` exactly when the trace performs a source `Commit` strictly before
any successful destination attach (remove-before-attach). -/
def removeBeforeAttach : List StealEv → Bool
  | [] => false
  | StealEv.attachOk :: _ => false
  | StealEv.srcCommit :: _ => true
  | StealEv.attachFail :: rest => removeBeforeAttach rest

/-- One queue operation performed by a client. -/
inductive Op where
  | put : Nat → Data → Op
  | commit : Op
  | peekOp : Op

/-- Apply one client operation to the queue state. -/
def applyOp : Op → QState → QState
  | Op.put t d, s => (stream t (Except.ok d) s).2
  | Op.commit, s => (commitAuto s).2
  | Op.peekOp, s => (peek s).2

/-- States reachable from a queue opened on an empty directory by any
sequence of `Put`/`Stream`, `Commit` and `Peek` calls — `Commit` included
when the queue is empty, since the API has no guard against it. -/
inductive Reachable : QState → Prop where
  | init : Reachable initState
  | step : ∀ {s : QState} (op : Op), Reachable s → Reachable (applyOp op s)

/-- States reachable from a queue opened on an empty directory when the
consumer follows the documented discipline and only calls `Commit` while the
queue is non-empty. -/
inductive GReachable : QState → Prop where
  | init : GReachable initState
  | put : ∀ {s : QState} (t : Nat) (d : Data), GReachable s →
      GReachable (stream t (Except.ok d) s).2
  | commit : ∀ {s : QState}, GReachable s → 0 < s.length →
      GReachable (commitAuto s).2
  | peekOp : ∀ {s : QState}, GReachable s → GReachable (peek s).2

/-- Iterated `Commit` (n commits in a row). -/
def commitN : Nat → QState → QState
  | 0, s => s
  | n + 1, s => (commitAuto (commitN n s)).2

/-! ### Association-list lemmas for the in-model directory -/

theorem flookup_none_of_not_mem {k : Int} {l : List (Int × Data)}
    (h : k ∉ l.map Prod.fst) : flookup k l = none := by
  induction l with
  | nil => rfl
  | cons p rest ih =>
      have h1 : ¬ p.1 = k := fun hc => h (by simp [hc])
      have h2 : k ∉ rest.map Prod.fst := fun hc => h (by simp [hc])
      simp [flookup, h1, ih h2]

theorem not_mem_of_flookup_none {k : Int} {l : List (Int × Data)}
    (h : flookup k l = none) : k ∉ l.map Prod.fst := by
  induction l with
  | nil => simp
  | cons p rest ih =>
      by_cases hp : p.1 = k
      · simp [flookup, hp] at h
      · simp only [flookup, if_neg hp] at h
        simp only [List.map_cons, List.mem_cons, not_or]
        exact ⟨fun hc => hp hc.symm, ih h⟩

theorem flookup_fremove_self (k : Int) (l : List (Int × Data)) :
    flookup k (fremove k l) = none := by
  induction l with
  | nil => rfl
  | cons p rest ih =>
      by_cases h : p.1 = k <;> simp [fremove, h, flookup, ih]

theorem flookup_fremove_ne {j k : Int} (h : j ≠ k) (l : List (Int × Data)) :
    flookup j (fremove k l) = flookup j l := by
  induction l with
  | nil => rfl
  | cons p rest ih =>
      by_cases hp : p.1 = k
      · have hpj : ¬ p.1 = j := fun hc => h ((hc ▸ hp).symm ▸ rfl)
        simp [fremove, hp, flookup, hpj, Ne.symm h, ih]
      · simp [fremove, hp, flookup, ih]

theorem fremove_eq_of_flookup_none {k : Int} {l : List (Int × Data)}
    (h : flookup k l = none) : fremove k l = l := by
  induction l with
  | nil => rfl
  | cons p rest ih =>
      by_cases hp : p.1 = k
      · simp [flookup, hp] at h
      · simp only [flookup, if_neg hp] at h
        simp [fremove, hp, ih h]

theorem fremove_sublist (k : Int) (l : List (Int × Data)) :
    (fremove k l).Sublist l := by
  induction l with
  | nil => simp [fremove]
  | cons p rest ih =>
      by_cases hp : p.1 = k
      · simpa [fremove, hp] using ih.cons p
      · simpa [fremove, hp] using ih.cons₂ p

theorem nodup_keys_fremove {k : Int} {l : List (Int × Data)}
    (h : (l.map Prod.fst).Nodup) : ((fremove k l).map Prod.fst).Nodup :=
  List.Nodup.sublist ((fremove_sublist k l).map Prod.fst) h

theorem length_fremove_of_some {k : Int} {l : List (Int × Data)} {d : Data}
    (hnd : (l.map Prod.fst).Nodup) (h : flookup k l = some d) :
    (fremove k l).length + 1 = l.length := by
  induction l with
  | nil => simp [flookup] at h
  | cons p rest ih =>
      rw [List.map_cons, List.nodup_cons] at hnd
      obtain ⟨hhead, htail⟩ := hnd
      by_cases hp : p.1 = k
      · have hmem : k ∉ rest.map Prod.fst := hp ▸ hhead
        have hrest : flookup k rest = none := flookup_none_of_not_mem hmem
        simp [fremove, hp, fremove_eq_of_flookup_none hrest]
      · simp only [flookup, if_neg hp] at h
        have := ih htail h
        simp only [fremove, if_neg hp, List.length_cons]
        omega

/-! ### Evaluation lemmas for the operations -/

theorem stream_ok_eq (tmp : Nat) (d : Data) (s : QState) :
    stream tmp (Except.ok d) s =
      (none, { s with files := fupdate s.counter d s.files,
                      counter := s.counter + 1,
                      length := s.length + 1,
                      notify := true }) := by
  cases s
  simp [stream, tremove]

theorem stream_error_eq (tmp : Nat) (e : GoErr) (s : QState) :
    stream tmp (Except.error e) s = (some e, s) := by
  cases s
  simp [stream, tremove]

theorem commitAuto_some_eq {s : QState} {d : Data}
    (h : flookup s.currentId s.files = some d) :
    commitAuto s =
      (none, { s with files := fremove s.currentId s.files,
                      currentId := s.currentId + 1,
                      length := s.length - 1,
                      notify := true }) := by
  simp [commitAuto, commitWith, h]

theorem commitAuto_none_eq {s : QState}
    (h : flookup s.currentId s.files = none) :
    commitAuto s =
      (none, { s with currentId := s.currentId + 1,
                      length := s.length - 1,
                      notify := true }) := by
  simp [commitAuto, commitWith, h]

theorem peek_state (s : QState) : (peek s).2 = s := by
  cases hv : flookup s.currentId s.files <;> simp [peek, hv]

/-! ### The operational invariant of a disciplined session -/

/-- Invariant of every state reached from a fresh empty queue when `Commit`
is only called on a non-empty queue: the records on disk are exactly the ids
in `[currentId, counter)`, their names are distinct, and `length` counts
them. -/
def Inv (s : QState) : Prop :=
  s.counter = s.currentId + s.length ∧
  0 ≤ s.length ∧
  (s.files.map Prod.fst).Nodup ∧
  (∀ j : Int, (flookup j s.files).isSome = true ↔
      (s.currentId ≤ j ∧ j < s.counter)) ∧
  (s.files.length : Int) = s.length

theorem inv_init : Inv initState := by
  refine ⟨rfl, le_refl 0, List.nodup_nil, ?_, rfl⟩
  intro j
  simp only [initState, flookup, Option.isSome_none]
  constructor
  · intro hc; exact absurd hc (by simp)
  · intro hc; omega

theorem inv_put {s : QState} (h : Inv s) (tmp : Nat) (d : Data) :
    Inv (stream tmp (Except.ok d) s).2 := by
  obtain ⟨f, t, ni, cur, ctr, len⟩ := s
  obtain ⟨h1, h2, h3, h4, h5⟩ := h
  simp only at h1 h2 h3 h4 h5
  rw [stream_ok_eq]
  have hnone : flookup ctr f = none := by
    cases hv : flookup ctr f with
    | none => rfl
    | some x =>
        have := (h4 ctr).mp (by simp [hv])
        omega
  have hfrem : fremove ctr f = f := fremove_eq_of_flookup_none hnone
  have hnotmem : ctr ∉ f.map Prod.fst := not_mem_of_flookup_none hnone
  refine ⟨by simp; omega, by simp; omega, ?_, ?_, ?_⟩
  · simp only [fupdate, hfrem, List.map_cons, List.nodup_cons]
    exact ⟨hnotmem, h3⟩
  · intro j
    simp only [fupdate, hfrem, flookup]
    by_cases hj : ctr = j
    · subst hj
      simp only [if_pos rfl, Option.isSome_some]
      constructor
      · intro _; constructor <;> omega
      · intro _; rfl
    · simp only [if_neg hj]
      rw [h4 j]
      constructor <;> intro hc <;> constructor <;> omega
  · simp only [fupdate, hfrem, List.length_cons]
    push_cast
    omega

theorem inv_commit {s : QState} (h : Inv s) (hlen : 0 < s.length) :
    Inv (commitAuto s).2 := by
  obtain ⟨f, t, ni, cur, ctr, len⟩ := s
  obtain ⟨h1, h2, h3, h4, h5⟩ := h
  simp only at h1 h2 h3 h4 h5 hlen
  have hsome : (flookup cur f).isSome = true := by
    rw [h4 cur]
    constructor <;> omega
  obtain ⟨d, hd⟩ := Option.isSome_iff_exists.mp hsome
  rw [commitAuto_some_eq hd]
  refine ⟨by simp; omega, by simp; omega, nodup_keys_fremove h3, ?_, ?_⟩
  · intro j
    by_cases hj : j = cur
    · subst hj
      simp only [flookup_fremove_self, Option.isSome_none]
      constructor
      · intro hc; exact absurd hc (by simp)
      · intro hc; omega
    · simp only [flookup_fremove_ne hj]
      rw [h4 j]
      constructor <;> intro hc <;> constructor <;> omega
  · have := length_fremove_of_some h3 hd
    simp only []
    omega

theorem inv_peek {s : QState} (h : Inv s) : Inv (peek s).2 := by
  rw [peek_state]
  exact h

theorem greachable_inv {s : QState} (h : GReachable s) : Inv s := by
  induction h with
  | init => exact inv_init
  | put t d _ ih => exact inv_put ih t d
  | commit _ hl ih => exact inv_commit ih hl
  | peekOp _ ih => exact inv_peek ih

/-! ### Supporting definitions for the claim statements -/

/-- Characterisation of the `commitN` iteration on the fresh empty queue:
the directory stays empty while the cursor runs ahead and `length` runs
negative. -/
theorem commitN_init (n : Nat) :
    (commitN n initState).files = [] ∧
    (commitN n initState).temps = [] ∧
    (commitN n initState).currentId = (n : Int) ∧
    (commitN n initState).counter = 0 ∧
    (commitN n initState).length = -(n : Int) := by
  induction n with
  | zero => exact ⟨rfl, rfl, rfl, rfl, rfl⟩
  | succ n ih =>
      obtain ⟨hf, ht, hc, hw, hl⟩ := ih
      have hnone : flookup (commitN n initState).currentId
          (commitN n initState).files = none := by
        rw [hf]
        rfl
      have hstep : commitN (n + 1) initState =
          { commitN n initState with
              currentId := (commitN n initState).currentId + 1,
              length := (commitN n initState).length - 1,
              notify := true } := by
        show (commitAuto (commitN n initState)).2 = _
        rw [commitAuto_none_eq hnone]
      rw [hstep]
      refine ⟨hf, ht, ?_, hw, ?_⟩
      · show (commitN n initState).currentId + 1 = _
        rw [hc]
        push_cast
        ring
      · show (commitN n initState).length - 1 = _
        rw [hl]
        push_cast
        ring

/-- A one-record source queue (one published, uncommitted record `0.data`
with bytes `[42]`), used to exercise `Steal`. -/
def srcOne : QState :=
  { files := [(0, [42])], temps := [], notify := false,
    currentId := 0, counter := 1, length := 1 }

/-- Trace demanded by the amended C4 claim (this definition follows the
amended claim's words, not the source): keyed by whether the fast-path
rename can succeed and whether the source currently holds a record. -/
def amendedStealTrace : Bool → Bool → List StealEv
  | true, true => [StealEv.attachOk, StealEv.srcCommit]
  | false, true => [StealEv.attachFail, StealEv.srcCommit, StealEv.attachOk]
  | _, false => [StealEv.attachFail]

/-- State after `Put [120]; Put [121]` on a fresh empty queue. -/
def c8s2 : QState :=
  (stream 1 (Except.ok [121]) (stream 0 (Except.ok [120]) initState).2).2

/-- State after the first `Commit` of the C8 scenario. -/
def c8s3 : QState := (commitAuto c8s2).2

/-- State after the second `Commit` of the C8 scenario. -/
def c8s4 : QState := (commitAuto c8s3).2

/-! ### Claims -/

/-- C1 (code bug): after `Open` on a directory whose listing starts with a
`*.temp` entry followed by `5.data`, the parsed ids are exactly `[5]`, yet
the queue comes up with `readCursor = 0` (and `length = 5`): the scan's
first-data-file initialisation is guarded by the index in the whole listing
(`i == 0`), so a non-data entry in first position leaves `min`/`max`
anchored at their zero initialisation.  The claim demands
`readCursor = min(id) = 5` regardless of `*.temp` entries in the listing. -/
theorem c1_sync_temp_first_wrong_min :
    dataIds [DirEntry.temp 0, DirEntry.data 5 [1]] = [5] ∧
    (openQueue [DirEntry.temp 0, DirEntry.data 5 [1]]).map
        (fun s => (s.currentId, s.counter, s.length)) =
      Except.ok ((0 : Int), (5 : Int), (5 : Int)) :=
  ⟨rfl, rfl⟩

/-- C2 (code bug): after `Open` on a directory containing exactly the record
file `0.data`, the code sets `length = max - min = 0` even though one record
was found; the claim (and spec) require
`length = writeCounter - readCursor + 1 = 1`. -/
theorem c2_open_length_off_by_one :
    dataIds [DirEntry.data 0 [7]] = [0] ∧
    (openQueue [DirEntry.data 0 [7]]).map
        (fun s => (s.currentId, s.counter, s.length)) =
      Except.ok ((0 : Int), (0 : Int), (0 : Int)) ∧
    ¬ ((0 : Int) = 0 - 0 + 1) :=
  ⟨rfl, rfl, by decide⟩

/-- C3 (code bug): reopen a directory containing record `0.data` (bytes
`[7]`); recovery sets `writer.counter = max = 0`, and the next publish uses
`id = writer.counter` before incrementing, so it renames the scratch file
onto the *existing* record id `0`, silently replacing its bytes with `[8]` —
the published id is not strictly greater than the ids already present. -/
theorem c3_reopen_publish_overwrites :
    (openQueue [DirEntry.data 0 [7]]).map
        (fun s => (flookup 0 s.files, s.counter,
                   (stream 9 (Except.ok [8]) s).1,
                   flookup 0 (stream 9 (Except.ok [8]) s).2.files,
                   (stream 9 (Except.ok [8]) s).2.counter)) =
      Except.ok (some [7], (0 : Int), none, some [8], (1 : Int)) :=
  rfl

/-- C4 (counterexample): a `Steal` execution forced onto the fallback path
(fast-path rename unavailable, source holding one record) invokes the source
`Commit` strictly before the destination attach: the event trace removes
before attaching, the call nevertheless returns no error, and the source
record is gone (source length 0).  This refutes the claim that on both paths
the source record is removed only after the destination rename succeeded. -/
theorem c4_fallback_removes_before_attach :
    removeBeforeAttach (steal 0 false initState srcOne).2.2.2 = true ∧
    (steal 0 false initState srcOne).1 = none ∧
    Len (steal 0 false initState srcOne).2.2.1 = 0 :=
  ⟨rfl, rfl, rfl⟩

/-- C4 (amended): in every `Steal` execution, on the fast path (the
destination's rename succeeds) the source `Commit` is invoked only after the
destination attach succeeded; on the fallback path with a non-empty source
the source `Commit` is invoked after the bytes are copied into the
destination scratch file but *before* the destination attach; with an empty
source no `Commit` happens at all.  Equivalently, remove-before-attach
occurs exactly on fallback executions with a non-empty source. -/
theorem c4_steal_commit_attach_order (tmp : Nat) (renameOk : Bool)
    (dst src : QState) :
    (steal tmp renameOk dst src).2.2.2 =
      amendedStealTrace renameOk (flookup src.currentId src.files).isSome ∧
    removeBeforeAttach (steal tmp renameOk dst src).2.2.2 =
      (!renameOk && (flookup src.currentId src.files).isSome) := by
  cases renameOk <;> cases hv : flookup src.currentId src.files <;>
    simp [steal, hv, amendedStealTrace, removeBeforeAttach,
          commitAuto, commitWith]

/-- C5: if the handler passed to `Stream` returns an error, `Stream` deletes
the scratch file and returns exactly that error, and the resulting queue
state is the original one — in particular no record became visible and
`readCursor`, `writeCounter` and `length` are unchanged. -/
theorem c5_stream_handler_error_state_unchanged (s : QState) (tmp : Nat)
    (e : GoErr) :
    (stream tmp (Except.error e) s).1 = some e ∧
    (stream tmp (Except.error e) s).2 = s := by
  rw [stream_error_eq]
  exact ⟨rfl, rfl⟩

/-- C6: `Commit` is fail-forward and idempotent with respect to an already
removed file: for every outcome of the deletion (`ok`, not-exist, or any
other error) the cursor has advanced by exactly one and `length` dropped by
one; a not-exist deletion failure yields no error, a successful deletion
yields no error, and any other deletion error is returned to the caller —
the cursor advance is never rolled back. -/
theorem c6_commit_fail_forward (s : QState) :
    (∀ rm : RmResult, (commitWith rm s).2.currentId = s.currentId + 1 ∧
        (commitWith rm s).2.length = s.length - 1) ∧
    (commitWith RmResult.notExist s).1 = none ∧
    (commitWith RmResult.ok s).1 = none ∧
    (∀ e : Nat, (commitWith (RmResult.otherErr e) s).1 =
        some (GoErr.ioErr e)) := by
  refine ⟨?_, rfl, rfl, fun e => rfl⟩
  intro rm
  cases rm <;> exact ⟨rfl, rfl⟩

/-- C7 (counterexample): the state reached from a freshly opened empty queue
by a single `Commit` call is reachable through the public API, yet its
`Len()` is `-1`: it neither equals the number of records present (`0`) nor
satisfies the `Len() == 0 ↔ Peek() = EmptyQueueError` equivalence (here
`Peek` fails while `Len() ≠ 0`).  This refutes the claim for arbitrary
reachable states. -/
theorem c7_unguarded_commit_breaks_len :
    Reachable (applyOp Op.commit initState) ∧
    ¬ ((((applyOp Op.commit initState).files.length : Int) =
          Len (applyOp Op.commit initState)) ∧
       (Len (applyOp Op.commit initState) = 0 ↔
          (peek (applyOp Op.commit initState)).1 =
            Except.error GoErr.emptyQueue)) :=
  ⟨Reachable.step Op.commit Reachable.init,
   fun hcl => absurd hcl.1 (by decide)⟩

/-- C7 (amended): for every state reachable from a freshly opened empty
queue when `Commit` is only invoked while the queue is non-empty, `Len()`
equals the number of records currently present (published and not yet
committed), and `Len() = 0` holds iff `Peek()` returns `EmptyQueueError`. -/
theorem c7_len_invariant_guarded {s : QState} (h : GReachable s) :
    (((s.files.length : Int)) = Len s) ∧
    (Len s = 0 ↔ (peek s).1 = Except.error GoErr.emptyQueue) := by
  obtain ⟨h1, h2, h3, h4, h5⟩ := greachable_inv h
  refine ⟨h5, ?_⟩
  cases hv : flookup s.currentId s.files with
  | some d =>
      have hcur := (h4 s.currentId).mp (by simp [hv])
      simp only [peek, hv, Len]
      constructor
      · intro h0
        exact absurd h0 (by omega)
      · intro hc
        exact absurd hc (by simp)
  | none =>
      have hnot : ¬ ((flookup s.currentId s.files).isSome = true) := by
        simp [hv]
      have hran : ¬ (s.currentId ≤ s.currentId ∧ s.currentId < s.counter) :=
        fun hc => hnot ((h4 s.currentId).mpr hc)
      simp only [peek, hv, Len]
      constructor
      · intro _
        trivial
      · intro _
        rcases lt_or_ge s.currentId s.counter with hlt | hge
        · exact absurd ⟨le_refl _, hlt⟩ hran
        · omega

/-- Witness for C7 (amended) at the freshly opened empty queue. -/
theorem c7_len_invariant_guarded_witness :
    GReachable initState ∧
    ((((initState.files.length : Int)) = Len initState) ∧
     (Len initState = 0 ↔ (peek initState).1 =
        Except.error GoErr.emptyQueue)) :=
  ⟨GReachable.init, c7_len_invariant_guarded GReachable.init⟩

/-- C8: starting from a freshly opened empty queue, `Put x; Put y` succeeds
and yields `Len = 2`; `Peek` then returns the record with bytes `x` and does
not consume (the state is unchanged); after `Commit`, `Len = 1` and `Peek`
returns `y`; after a second `Commit`, `Peek` returns `EmptyQueueError`. -/
theorem c8_put_put_peek_commit_scenario :
    (stream 0 (Except.ok [120]) initState).1 = none ∧
    (stream 1 (Except.ok [121]) (stream 0 (Except.ok [120]) initState).2).1 =
      none ∧
    Len c8s2 = 2 ∧
    (peek c8s2).1 = Except.ok (0, [120]) ∧
    (peek c8s2).2 = c8s2 ∧
    (commitAuto c8s2).1 = none ∧
    Len c8s3 = 1 ∧
    (peek c8s3).1 = Except.ok (1, [121]) ∧
    (commitAuto c8s3).1 = none ∧
    (peek c8s4).1 = Except.error GoErr.emptyQueue :=
  ⟨rfl, rfl, rfl, rfl, rfl, rfl, rfl, rfl, rfl, rfl⟩

/-- C9: `Peek` never modifies the queue state — any number of consecutive
`Peek` calls (successful or failing with `EmptyQueueError`) leave the state,
hence `readCursor`, `writeCounter` and `length`, unchanged, and a `Peek`
after any number of `Peek` calls returns the same result (same record id and
identical bytes, or the same error) as the first one. -/
theorem c9_peek_pure (s : QState) (n : Nat) :
    (fun t => (peek t).2)^[n] s = s ∧
    (peek ((fun t => (peek t).2)^[n] s)).1 = (peek s).1 := by
  have hit : (fun t : QState => (peek t).2)^[n] s = s :=
    Function.iterate_fixed (peek_state s) n
  exact ⟨hit, by rw [hit]⟩

/-- C10: `Commit` has no emptiness guard: committing on the empty queue
reached from a fresh open by `n` prior commits returns no error while still
advancing `readCursor` and decrementing `length`, so after `n` unguarded
commits `Len = -n`, `readCursor = n` and `writeCounter = 0`; in particular
two commits drive `Len()` negative and `readCursor` past
`writeCounter + 1`. -/
theorem c10_commit_on_empty_unguarded (n : Nat) :
    (commitAuto (commitN n initState)).1 = none ∧
    (commitN (n + 1) initState).currentId =
      (commitN n initState).currentId + 1 ∧
    (commitN (n + 1) initState).length = (commitN n initState).length - 1 ∧
    (commitN n initState).length = -(n : Int) ∧
    (commitN n initState).currentId = (n : Int) ∧
    (commitN n initState).counter = 0 ∧
    Len (commitN 2 initState) < 0 ∧
    (commitN 2 initState).counter + 1 < (commitN 2 initState).currentId := by
  obtain ⟨hf, ht, hc, hw, hl⟩ := commitN_init n
  have hnone : flookup (commitN n initState).currentId
      (commitN n initState).files = none := by
    rw [hf]
    rfl
  refine ⟨?_, ?_, ?_, hl, hc, hw, by decide, by decide⟩
  · rw [commitAuto_none_eq hnone]
  · show (commitAuto (commitN n initState)).2.currentId = _
    rw [commitAuto_none_eq hnone]
  · show (commitAuto (commitN n initState)).2.length = _
    rw [commitAuto_none_eq hnone]

end Dfq
